import Mathlib

/-!
Shallow embedding of the rdeebee storage engine and cluster-node core.

Each definition mirrors one Rust item of the repository; the file then
settles the spec claims C1..C10 as theorems over these definitions.
Machine integers are modelled as `Nat` with explicit `% 2^64` where the
Rust code uses wrapping arithmetic; `Uuid` values are modelled by the
128-bit natural number they denote (the `Ord` instance of `Uuid` compares
the 16 raw bytes lexicographically, which coincides with the numeric
order of that number).  File-system effects are modelled by explicit
state passing; fallible effects take a `Bool` telling whether the
underlying I/O succeeded.
-/

namespace RDB

/-- `Action` of an event (src/src/storage/event.rs; the unit-variant form
matched by `RDeeBee::add_event` in src/src/lib.rs). -/
inductive Action where
  | Read
  | Write
  | Delete
deriving DecidableEq, Repr

/-- `Event` (src data model, §3 of the engine: `seq`, `tid`, `action,`
optional byte `payload`); matches the fields used by src/src/lib.rs and
src/src/storageops/event.rs. -/
structure Event where
  seq : Nat
  tid : Nat
  action : Action
  payload : Option (List Nat)
deriving DecidableEq, Repr

/-- `Event::new` with a freshly generated tid (the `Uuid::new_v4()` value is
passed in explicitly since it is external randomness). -/
def Event.new (action : Action) (seq : Nat) (freshTid : Nat) : Event :=
  { seq := seq, tid := freshTid, action := action, payload := none }

/-- `Event::with_id` (src/src/lib.rs uses it to reuse the tid mapped to a key). -/
def Event.with_id (id : Nat) (action : Action) (seq : Nat) : Event :=
  { seq := seq, tid := id, action := action, payload := none }

/-- `Event::set_payload` (src/src/storage/event.rs: unconditional field update). -/
def Event.set_payload (e : Event) (p : Option (List Nat)) : Event :=
  { e with payload := p }

/-- Round `n` up to a multiple of the alignment `a` (the `match sz % align`
arms of `Event::size`). -/
def padTo (a n : Nat) : Nat :=
  if n % a = 0 then n else n + (a - n % a)

/-- `Event::size` (src/src/storageops/event.rs), with the `mem::size_of` /
`mem::align_of` constants of the 64-bit target: `SystemTime` 16/8,
`Uuid` 16/1, `Action` 1/1, `Vec<u8>` 24/8. -/
def Event.size (e : Event) : Nat :=
  let systime_sz := padTo 8 16
  let id_sz := padTo 1 16
  let action_sz := padTo 1 1
  let payload_sz := padTo 8 (match e.payload with
    | some v => v.length
    | none => 8)
  systime_sz + id_sz + action_sz + payload_sz

/-- `Operation` of the wire protocol (src/src/protos/operation.proto,
referenced from src/src/lib.rs). -/
inductive Operation where
  | Read
  | Write
  | Delete
deriving DecidableEq, Repr

/-- `Status` of the wire protocol. Modelled from the spec: the proto file
itself is absent from the tree; §6 lists `{Ok, InvalidKey, InvalidOp,
ServerError}` and src/src/lib.rs uses these four variants. -/
inductive Status where
  | Ok
  | Invalid_Key
  | Invalid_Op
  | Server_Error
deriving DecidableEq, Repr

/-- A protobuf `Request`. `op` is `none` when the wire enum value is unknown
(`EnumOrUnknown::enum_value()` returning `Err`). -/
structure Request where
  key : String
  op : Option Operation
  seq : Nat
  payload : List Nat
deriving DecidableEq, Repr

/-- A protobuf `Response`; `Response::new()` carries the proto default values
(empty strings/bytes and the first enum variants). -/
structure Response where
  key : String
  op : Option Operation
  status : Status
  payload : List Nat
deriving DecidableEq, Repr

/-- `Response::new()`. -/
def Response.new : Response :=
  { key := "", op := some Operation.Read, status := Status.Ok, payload := [] }

/-! ### Association-list model of `HashMap` -/

/-- `HashMap::insert`: replace the binding of `k` if present, else add it. -/
def alInsert {α β : Type} [DecidableEq α] : List (α × β) → α → β → List (α × β)
  | [], k, v => [(k, v)]
  | (k', v') :: rest, k, v =>
      if k' = k then (k, v) :: rest else (k', v') :: alInsert rest k v

/-- `HashMap::get`. -/
def alGet {α β : Type} [DecidableEq α] : List (α × β) → α → Option β
  | [], _ => none
  | (k', v') :: rest, k => if k' = k then some v' else alGet rest k

/-! ### MemTable (src/src/storage/mem/memtable.rs)

The `OrderedSkipList<Uuid>` holding the identifiers is modelled by a
`≤`-sorted list of naturals; its `insert` keeps duplicates, exactly like
the skiplist's, and is `List.orderedInsert`.  The `HashMap<Uuid, Event>`
holding the entries is an association list. -/

structure MemTable where
  identifiers : List Nat
  entries : List (Nat × Event)
  size : Nat
deriving Repr

/-- `MemTable::new`. -/
def MemTable.new : MemTable := { identifiers := [], entries := [], size := 0 }

/-- `MemTable::insert`: insert the id into the ordered index (duplicates are
kept, as `OrderedSkipList::insert` does), replace the entry for the id, and
add the event's size. -/
def MemTable.insert (m : MemTable) (e : Event) : MemTable :=
  { identifiers := List.orderedInsert (· ≤ ·) e.tid m.identifiers
    entries := alInsert m.entries e.tid e
    size := m.size + e.size }

/-- `MemTable::len`. -/
def MemTable.len (m : MemTable) : Nat := m.identifiers.length

/-- `MemTable::get_event`. -/
def MemTable.get_event (m : MemTable) (tid : Nat) : Option Event :=
  alGet m.entries tid

/-- `MemTable::contains` (listed in §4.4 and called by
`RDeeBee::contains_event`; the memtable module holds the entry map, so the
lookup is on it). -/
def MemTable.containsTid (m : MemTable) (tid : Nat) : Bool :=
  (alGet m.entries tid).isSome

/-- The loop body of `MemtableIterator::next`: walk the identifier index in
order and yield `get_event(id)`; a `None` from `get_event` ends the
iteration (the Rust iterator returns `None` there). -/
def memGo (entries : List (Nat × Event)) : List Nat → List Event
  | [] => []
  | id :: rest =>
      match alGet entries id with
      | some e => e :: memGo entries rest
      | none => []

/-- Full iteration of a memtable (`for event in &memtable { ... }`). -/
def MemTable.toList (m : MemTable) : List Event :=
  memGo m.entries m.identifiers

/-! ### Bloom filter (src/src/storage/mem/bloomfilter.rs)

The two 64-bit hash functions (`fxhash::hash64` and `DefaultHasher`) are
external library code; they enter the model as parameters `h1 h2`.  The
bit vector is modelled by the list of indices that are set. -/

def BF_SIZE : Nat := 56166771
def NUM_HASHES : Nat := 10
def U64 : Nat := 2 ^ 64

/-- `BFInner::hash_i`: `(Wrapping(h1) + Wrapping(i*i as u64) * Wrapping(h2)).0
as usize % size`. -/
def hash_i (h1 h2 : Nat → Nat) (id i : Nat) : Nat :=
  (h1 id % U64 + i * i % U64 * (h2 id % U64)) % U64 % BF_SIZE

/-- `BFInner::hash`: the ten indices for an id. -/
def bfHashes (h1 h2 : Nat → Nat) (id : Nat) : List Nat :=
  (List.range NUM_HASHES).map (hash_i h1 h2 id)

structure BloomFilter where
  bits : List Nat
deriving Repr

/-- `BloomFilter::new`: all bits clear. -/
def BloomFilter.new : BloomFilter := { bits := [] }

/-- `BFInner::find`: true only if every hashed bit is set (a hashed index is
always `< BF_SIZE`, so the out-of-range branch of `inner.get` is dead). -/
def BloomFilter.find (h1 h2 : Nat → Nat) (bf : BloomFilter) (id : Nat) : Bool :=
  (bfHashes h1 h2 id).all (fun i => bf.bits.contains i)

/-- `BFInner::add`: set every hashed bit. -/
def BloomFilter.add (h1 h2 : Nat → Nat) (bf : BloomFilter) (id : Nat) : BloomFilter :=
  { bits := bf.bits ++ bfHashes h1 h2 id }

/-- `BFInner::delete`: clear every hashed bit. -/
def BloomFilter.delete (h1 h2 : Nat → Nat) (bf : BloomFilter) (id : Nat) : BloomFilter :=
  { bits := bf.bits.filter (fun b => ¬ (bfHashes h1 h2 id).contains b) }

/-! ### SSTable (src/src/storage/disk/sstable.rs)

An on-disk table `rdeebee-<epoch>.table` is modelled by its epoch (the
integer `get_epoch_from_filename` parses back out of the name) and the
sequence of events its file holds, in file order. -/

structure SSTable where
  epoch : Nat
  events : List Event
deriving DecidableEq, Repr

/-- `SSTable::get`: first scan hit on the file. -/
def SSTable.get (t : SSTable) (id : Nat) : Option Event :=
  t.events.find? (fun e => e.tid = id)

/-- `SSTable::contains`. -/
def SSTable.containsTid (t : SSTable) (id : Nat) : Bool :=
  (t.events.find? (fun e => e.tid = id)).isSome

/-- One round of the emit logic inside `SSTable::merge`'s loop: the chosen
event's id is pushed onto `deleted_events` first when its action is
`Delete`, and the event is then appended to `events` only if its id is not
in `deleted_events`. -/
def mergeStep (deleted : List Nat) (acc : List Event) (e : Event) :
    List Nat × List Event :=
  let deleted' := if e.action = Action.Delete then deleted ++ [e.tid] else deleted
  let acc' := if deleted'.contains e.tid then acc else acc ++ [e]
  (deleted', acc')

/-- The rounds of `SSTable::merge`'s loop after the left stream is
exhausted: each remaining right-hand event is emitted through
`mergeStep`. -/
def mergeTail : List Nat → List Event → List Event → List Nat × List Event
  | deleted, acc, [] => (deleted, acc)
  | deleted, acc, b :: bs =>
      let s := mergeStep deleted acc b
      mergeTail s.1 s.2 bs

/-- The loop of `SSTable::merge`: every round calls `next()` on BOTH
iterators (`match (iter1.next(), iter2.next())`), chooses one of the two
events by comparing tids (ties by the newer epoch, `e1newer` says whether
the left table's epoch is the larger), and runs `mergeStep` on the chosen
event.  Both streams advance each round regardless of which side was
chosen. -/
def mergeLoop (e1newer : Bool) :
    List Event → List Event → List Nat → List Event → List Event
  | [], bs, deleted, acc => (mergeTail deleted acc bs).2
  | a :: as, [], deleted, acc =>
      let s := mergeStep deleted acc a
      mergeLoop e1newer as [] s.1 s.2
  | a :: as, b :: bs, deleted, acc =>
      let chosen :=
        if a.tid < b.tid then a
        else if a.tid = b.tid then (if e1newer then a else b)
        else b
      let s := mergeStep deleted acc chosen
      mergeLoop e1newer as bs s.1 s.2

/-- The event list that `SSTable::merge(self, other)` writes to the merged
file. -/
def SSTable.mergeContents (A B : SSTable) : List Event :=
  mergeLoop (decide (B.epoch < A.epoch)) A.events B.events [] []

/-- `SSTable::merge` as a value-level map: the new file carries a fresh epoch
(`SystemTime::now()`, passed in) and the merged contents. -/
def SSTable.merge (A B : SSTable) (newEpoch : Nat) : SSTable :=
  { epoch := newEpoch, events := SSTable.mergeContents A B }

/-- The file-system effect of `SSTable::merge` (lines 249–267): both input
files are removed first (`fs::remove_file` twice), and only then is the
output file created and written; `writeOk` tells whether the write/flush
succeeded.  The directory is the list of (epoch, contents) table files;
the returned `Bool` is whether merge reported success. -/
def mergeFs (fs : List (Nat × List Event)) (eA eB : Nat) (merged : List Event)
    (newEpoch : Nat) (writeOk : Bool) : List (Nat × List Event) × Bool :=
  let fs1 := fs.filter (fun p => p.1 ≠ eA)
  let fs2 := fs1.filter (fun p => p.1 ≠ eB)
  if writeOk then (fs2 ++ [(newEpoch, merged)], true) else (fs2, false)

/-- `Vec::remove(i)`: `none` models the index-out-of-bounds panic. -/
def vecRemove {α : Type} (l : List α) (i : Nat) : Option (α × List α) :=
  if h : i < l.length then some (l.get ⟨i, h⟩, l.eraseIdx i) else none

/-- `RDeeBee::try_sstables_compact` on the SSTable list (src/src/lib.rs
95–103): no-op below two tables; otherwise `remove(0)`, then `remove(1)` on
the shrunk vector, merge the two removed tables and `insert(0, ..)` the
result.  `none` models a panic of `Vec::remove`. -/
def try_sstables_compact (tables : List SSTable) (newEpoch : Nat) :
    Option (List SSTable) :=
  if tables.length < 2 then some tables
  else
    match vecRemove tables 0 with
    | none => none
    | some (s1, rest) =>
        match vecRemove rest 1 with
        | none => none
        | some (s2, rest2) => some (SSTable.merge s1 s2 newEpoch :: rest2)

/-! ### Recovery (src/src/recovery.rs) -/

/-- A database directory: the `.wal` files and the `.table` files, each as
(epoch, decoded events in file order). -/
structure DirState where
  wals : List (Nat × List Event)
  tables : List (Nat × List Event)
deriving Repr

/-- `recover_files` sorts the catalogued epochs ascending; insertion sort on
the epoch component. -/
def sortByEpoch (l : List (Nat × List Event)) : List (Nat × List Event) :=
  l.foldr (List.orderedInsert (fun a b => a.1 ≤ b.1)) []

/-- `Recovery::recover` (called `recover_memtable` from `RDeeBee::recover`):
replay every `.wal` file in ascending epoch order, inserting each event
into a fresh memtable. -/
def Recovery.recover (dir : DirState) : MemTable :=
  ((sortByEpoch dir.wals).flatMap Prod.snd).foldl MemTable.insert MemTable.new

/-- `Recovery::recover_sstable`: load every `.table` file in ascending epoch
order. -/
def Recovery.recover_sstable (dir : DirState) : List SSTable :=
  (sortByEpoch dir.tables).map (fun p => { epoch := p.1, events := p.2 })

/-! ### The storage engine (src/src/lib.rs) -/

/-- `RDeeBee`'s state.  `wal` is the event sequence appended to the current
WAL file; `compaction_size`, the directory path and the `Recovery` helper
carry no claim-relevant state and are omitted. -/
structure RDeeBee where
  wal : List Event
  memtable : MemTable
  sstables : List SSTable
  bloomfilter : BloomFilter
  key_to_id_map : List (String × Nat)
deriving Repr

/-- `RDeeBee::new` on an empty directory. -/
def RDeeBee.new : RDeeBee :=
  { wal := [], memtable := MemTable.new, sstables := [],
    bloomfilter := BloomFilter.new, key_to_id_map := [] }

/-- `RDeeBee::add_event` (src/src/lib.rs 120–162).  `freshTid` is the
`Uuid::new_v4()` drawn when the key is unmapped; `walOk` is whether
`wal.add_event` succeeded.  Returns the response and the new engine
state. -/
def RDeeBee.add_event (h1 h2 : Nat → Nat) (db : RDeeBee) (req : Request)
    (freshTid : Nat) (walOk : Bool) : Response × RDeeBee :=
  match req.op with
  | none => ({ Response.new with status := Status.Invalid_Op }, db)
  | some op =>
      let action := match op with
        | Operation.Read => Action.Read
        | Operation.Write => Action.Write
        | Operation.Delete => Action.Delete
      let resolved : Event × RDeeBee :=
        match alGet db.key_to_id_map req.key with
        | some id =>
            (Event.with_id id action req.seq,
             { db with key_to_id_map := alInsert db.key_to_id_map req.key id })
        | none =>
            let e := Event.new action req.seq freshTid
            (e, { db with
                    key_to_id_map := alInsert db.key_to_id_map req.key e.tid
                    bloomfilter := BloomFilter.add h1 h2 db.bloomfilter e.tid })
      let event :=
        if req.payload ≠ [] then resolved.1.set_payload (some req.payload)
        else resolved.1
      let db1 := resolved.2
      if walOk then
        ({ Response.new with status := Status.Ok, key := req.key, op := req.op },
         { db1 with
             wal := db1.wal ++ [event]
             memtable := db1.memtable.insert event })
      else
        ({ Response.new with status := Status.Server_Error }, db1)

/-- `RDeeBee::contains_event` (src/src/lib.rs 165–182) on an id that parsed
to a valid `Uuid` (an unparsable string returns `false` before this logic
runs).  Note the code returns `false` outright when the bloom filter FINDS
the id. -/
def RDeeBee.contains_event (h1 h2 : Nat → Nat) (db : RDeeBee) (id : Nat) : Bool :=
  if db.bloomfilter.find h1 h2 id then false
  else if db.memtable.containsTid id then true
  else db.sstables.any (fun t => t.containsTid id)

/-- The memtable scan of `get_event_by_key`: `for event in &self.memtable
{ ret_event = Some(event); }` keeps the LAST event the iterator yields,
never consulting the looked-up uuid. -/
def memtableScan (m : MemTable) : Option Event :=
  m.toList.getLast?

/-- The SSTable scan of `get_event_by_key`: newest (last) table first, first
`get` hit wins. -/
def findInTablesRev (tables : List SSTable) (id : Nat) : Option Event :=
  tables.reverse.findSome? (fun t => t.get id)

/-- `RDeeBee::get_event_by_key` (src/src/lib.rs 186–235). -/
def RDeeBee.get_event_by_key (h1 h2 : Nat → Nat) (db : RDeeBee) (key : String) :
    Response :=
  match alGet db.key_to_id_map key with
  | none => { Response.new with status := Status.Invalid_Key }
  | some uuid =>
      if ¬ db.bloomfilter.find h1 h2 uuid then
        { Response.new with status := Status.Invalid_Key }
      else
        let ret_event :=
          match memtableScan db.memtable with
          | some e => some e
          | none => findInTablesRev db.sstables uuid
        match ret_event with
        | some event =>
            { Response.new with
                key := key
                status := Status.Ok
                op := some (match event.action with
                  | Action.Read => Operation.Read
                  | Action.Write => Operation.Write
                  | Action.Delete => Operation.Delete)
                payload := event.payload.getD [] }
        | none => { Response.new with key := key, status := Status.Invalid_Key }

/-- `RDeeBee::recover` (src/src/lib.rs 292–296): replace the memtable and the
SSTable list from the directory; the bloom filter and the key→tid map are
not touched. -/
def RDeeBee.recover (db : RDeeBee) (dir : DirState) : RDeeBee :=
  { db with
      memtable := Recovery.recover dir
      sstables := Recovery.recover_sstable dir }

/-! ### WAL encoding (src/src/storage/disk/wal.rs)

`Wal::add_event` writes `bincode::serialize(&event)` followed by the byte
`b'|'` (0x7c = 124).  `bincode::serialize` uses the legacy configuration:
fixed-width little-endian integers; an `Option` is a one-byte tag; a byte
vector is an 8-byte length followed by the raw bytes; the `Uuid` serde
implementation writes its 16 raw (big-endian) bytes as a bincode byte
string (8-byte length, then the bytes); an enum is its `u32` variant
index. -/

/-- `w` little-endian bytes of `v`. -/
def natToLEBytes : Nat → Nat → List Nat
  | 0, _ => []
  | w + 1, v => v % 256 :: natToLEBytes w (v / 256)

/-- `w` big-endian bytes of `v` (the raw byte order of a `Uuid`). -/
def natToBEBytes (w v : Nat) : List Nat := (natToLEBytes w v).reverse

/-- The `u32` variant index of an `Action`. -/
def Action.tag : Action → Nat
  | Action.Read => 0
  | Action.Write => 1
  | Action.Delete => 2

/-- `bincode::serialize(&event)`: the body written before the terminator. -/
def encodeEvent (e : Event) : List Nat :=
  natToLEBytes 8 e.seq
    ++ natToLEBytes 8 16 ++ natToBEBytes 16 e.tid
    ++ natToLEBytes 4 e.action.tag
    ++ match e.payload with
       | none => [0]
       | some p => [1] ++ natToLEBytes 8 p.length ++ p

/-- The byte stream a sequence of `Wal::add_event` calls appends: each body
followed by the `b'|'` terminator. -/
def walBytes (events : List Event) : List Nat :=
  events.flatMap (fun e => encodeEvent e ++ [124])

/-- `BufRead::read_until(b'|')` as used by `WalIterator::next` and
`SSTableIterator::next`: the first chunk up to and including the first
terminator (or everything at EOF), and the remaining bytes. -/
def readUntil : List Nat → List Nat × List Nat
  | [] => ([], [])
  | b :: rest =>
      if b = 124 then ([b], rest)
      else
        let s := readUntil rest
        (b :: s.1, s.2)

/-! ### Cluster keys and the leader watch (src/src/cluster_ops) -/

/-- `election_key_prefix_gen!` (src/src/cluster_ops/mod.rs). -/
def election_key_prefix_gen (dbname : String) (g n : Nat) : String :=
  "election-" ++ dbname ++ "-group-" ++ toString g ++ "-leader-" ++ toString n

/-- `leader_key_gen!` (src/src/cluster_ops/mod.rs). -/
def leader_key_gen (dbname : String) (g n : Nat) : String :=
  "leader-" ++ dbname ++ "-group-" ++ toString g ++ "-" ++ toString n

/-- An etcd watch event type. -/
inductive WatchEventType where
  | Put
  | Delete
deriving DecidableEq, Repr

/-- An etcd watch event: type and key. -/
structure WatchEvent where
  type : WatchEventType
  key : String
deriving DecidableEq, Repr

/-- Is the first character list a prefix of the second? -/
def listPrefixOf : List Char → List Char → Bool
  | [], _ => true
  | _ :: _, [] => false
  | a :: as, b :: bs => a = b && listPrefixOf as bs

/-- Is the first character list a contiguous infix of the second? -/
def listInfixOf (needle : List Char) : List Char → Bool
  | [] => needle.isEmpty
  | b :: bs => listPrefixOf needle (b :: bs) || listInfixOf needle bs

/-- Rust `str::contains` with a string pattern: substring test. -/
def strContains (hay needle : String) : Bool :=
  listInfixOf needle.toList hay.toList

/-- The event dispatch of `Node::watch_group_leaders` (src/src/cluster_ops/
node.rs 560–583), reached when both election slots were found occupied:
scan the watch message's events in order; on a `Delete` event whose key
contains leader key 1 return election key 1; any other event — including a
`Delete` under leader key 2 — falls through, and after the loop the
function returns `Ok(None)`. -/
def watch_group_leaders_dispatch (dbname : String) (g : Nat)
    (events : List WatchEvent) : Option String :=
  events.findSome? (fun ev =>
    if ev.type = WatchEventType.Delete
        ∧ strContains ev.key (leader_key_gen dbname g 1) = true then
      some (election_key_prefix_gen dbname g 1)
    else none)

/-- A concrete first hash for evaluating scenarios: the identity (the model
is parametric in the external 64-bit hashers). -/
def hid : Nat → Nat := fun n => n

/-- A concrete second hash for evaluating scenarios: constantly zero. -/
def hzero : Nat → Nat := fun _ => 0

/-- Scenario state for C1: a fresh engine after `add_event` on key `"b"`
(fresh tid 2, payload `[66]`). -/
def c1_pre : RDeeBee :=
  (RDeeBee.add_event hid hzero RDeeBee.new
    ⟨"b", some Operation.Write, 1, [66]⟩ 2 true).2

/-- Scenario step for C1: from `c1_pre`, `add_event` on key `"a"` (fresh tid
1, payload `[65]`), WAL append succeeding. -/
def c1_add : Response × RDeeBee :=
  RDeeBee.add_event hid hzero c1_pre ⟨"a", some Operation.Write, 2, [65]⟩ 1 true

/-- Scenario state for C2: a fresh engine after `add_event` on key `"a"`
(fresh tid 7). -/
def c2_state : RDeeBee :=
  (RDeeBee.add_event hid hzero RDeeBee.new
    ⟨"a", some Operation.Write, 1, [65]⟩ 7 true).2

/-- Scenario state for C6: a fresh engine after `recover()` on a directory
whose single WAL (epoch 10) holds one event with tid 5. -/
def c6_state : RDeeBee :=
  RDeeBee.recover RDeeBee.new ⟨[(10, [⟨1, 5, Action.Write, some [65]⟩])], []⟩

/-- Well-formedness of a memtable reachable by `insert`s: the identifier
index is sorted, and every indexed id is bound in the entry map to an
event carrying that id. -/
def MemTable.WF (m : MemTable) : Prop :=
  m.identifiers.Sorted (· ≤ ·) ∧
  ∀ id ∈ m.identifiers, ∃ e, alGet m.entries id = some e ∧ e.tid = id

/-! ## Helper lemmas -/

theorem alGet_alInsert {α β : Type} [DecidableEq α] (m : List (α × β)) (k k' : α)
    (v : β) :
    alGet (alInsert m k v) k' = if k' = k then some v else alGet m k' := by
  induction m with
  | nil =>
    by_cases h : k' = k
    · simp [alInsert, alGet, h]
    · simp [alInsert, alGet, h, Ne.symm h]
  | cons p rest ih =>
    obtain ⟨pk, pv⟩ := p
    by_cases hp : pk = k
    · subst hp
      by_cases h : k' = pk
      · simp [alInsert, alGet, h]
      · simp [alInsert, alGet, h, Ne.symm h]
    · by_cases h : pk = k'
      · subst h
        simp [alInsert, alGet, hp, Ne.symm hp]
      · simp [alInsert, alGet, hp, h, Ne.symm h, ih]

theorem find_add_self (h1 h2 : Nat → Nat) (bf : BloomFilter) (id : Nat) :
    (bf.add h1 h2 id).find h1 h2 id = true := by
  simp [BloomFilter.find, BloomFilter.add, List.all_eq_true, List.contains]
  intro i hi
  right
  exact hi

theorem wf_new : MemTable.new.WF := by
  constructor
  · simp [MemTable.new, List.Sorted]
  · intro id hid
    simp [MemTable.new] at hid

theorem wf_insert (m : MemTable) (e : Event) (h : m.WF) : (m.insert e).WF := by
  constructor
  · exact h.1.orderedInsert e.tid m.identifiers
  · intro id hid
    rw [MemTable.insert] at hid
    simp only at hid
    rw [List.mem_orderedInsert] at hid
    by_cases hcase : id = e.tid
    · exact ⟨e, by simp [MemTable.insert, alGet_alInsert, hcase], hcase.symm⟩
    · rcases hid with hid | hid
      · exact absurd hid hcase
      · obtain ⟨e', he', ht'⟩ := h.2 id hid
        exact ⟨e', by simp [MemTable.insert, alGet_alInsert, hcase, he'], ht'⟩

theorem wf_foldl (es : List Event) (m : MemTable) (h : m.WF) :
    (es.foldl MemTable.insert m).WF := by
  induction es generalizing m with
  | nil => exact h
  | cons e rest ih => exact ih _ (wf_insert m e h)

theorem memGo_spec (entries : List (Nat × Event)) (ids : List Nat)
    (h : ∀ id ∈ ids, ∃ e, alGet entries id = some e ∧ e.tid = id) :
    (memGo entries ids).map Event.tid = ids ∧
    ∀ e ∈ memGo entries ids, alGet entries e.tid = some e := by
  induction ids with
  | nil => simp [memGo]
  | cons id rest ih =>
    obtain ⟨e, he, ht⟩ := h id (List.mem_cons_self id rest)
    obtain ⟨ih1, ih2⟩ := ih (fun i hi => h i (List.mem_cons_of_mem id hi))
    constructor
    · simp [memGo, he, ht, ih1]
    · intro x hx
      rw [memGo] at hx
      rw [he] at hx
      simp only [List.mem_cons] at hx
      rcases hx with hx | hx
      · subst hx
        rw [ht]
        exact he
      · exact ih2 x hx

/-! ## Claims -/

/-- C1.  The claim says an `add_event` that returns `Ok` on key `k` is
immediately readable back: `get_event_by_key(k)` returns `Ok` with the
inserted payload, for every engine state including ones whose memtable
holds events of other keys.  The code's memtable scan
(`for event in &self.memtable { ret_event = Some(event); }`) ignores the
looked-up tid and keeps the LAST event the iterator yields.  Concretely:
with key `"b"` (tid 2, payload `[66]`) already in the memtable, adding key
`"a"` (fresh tid 1, payload `[65]`) returns `Ok`, and the immediate read of
`"a"` returns `Ok` — but with payload `[66]`, the payload of `"b"`. -/
theorem c1_get_after_add_returns_other_keys_payload :
    c1_add.1.status = Status.Ok
      ∧ (RDeeBee.get_event_by_key hid hzero c1_add.2 "a").status = Status.Ok
      ∧ (RDeeBee.get_event_by_key hid hzero c1_add.2 "a").payload = [66] := by
  decide

/-- C2.  The claim says `contains_event(tid)` is false on a bloom miss and
otherwise reports membership in memtable ∪ SSTables; a bloom hit must not
by itself force `false`.  The code has the branch inverted
(`if self.bloomfilter.find(uuid) { return false; }`): after a normal
`add_event`, the tid is in the memtable and in the bloom filter, and
`contains_event` returns `false` exactly because the bloom filter finds
it. -/
theorem c2_contains_event_false_on_bloom_hit :
    MemTable.containsTid c2_state.memtable 7 = true
      ∧ BloomFilter.find hid hzero c2_state.bloomfilter 7 = true
      ∧ RDeeBee.contains_event hid hzero c2_state 7 = false := by
  decide

/-- C3.  The claim says `merge(A, B)` on sorted inputs produces the union of
the two event sets minus deleted tids.  The code's loop advances BOTH
iterators every round, so an event that loses the tid comparison is
dropped instead of being re-considered: merging `A = [tid 1]` (epoch 200)
with `B = [tid 2]` (epoch 100), both sorted and free of `Delete` events,
yields only `[tid 1]` and loses the event with tid 2. -/
theorem c3_merge_loses_right_event :
    let eA : Event := ⟨1, 1, Action.Write, some [1]⟩
    let eB : Event := ⟨1, 2, Action.Write, some [2]⟩
    let A : SSTable := ⟨200, [eA]⟩
    let B : SSTable := ⟨100, [eB]⟩
    SSTable.mergeContents A B = [eA] ∧ eB ∉ SSTable.mergeContents A B := by
  decide

/-- C4.  The claim says `merge` unlinks its two input files only after the
merged output is fully written and flushed, and leaves both inputs intact
when the write fails.  The code calls `fs::remove_file` on both inputs
BEFORE creating the output file: modelling the directory of table files,
a merge whose write fails ends with both inputs gone and no output. -/
theorem c4_merge_failure_loses_inputs :
    let fs : List (Nat × List Event) :=
      [(1, [⟨1, 1, Action.Write, some [1]⟩]), (2, [⟨2, 2, Action.Write, some [2]⟩])]
    mergeFs fs 1 2 [] 3 false = ([], false) := by
  decide

/-- C5.  The claim says `try_sstables_compact` merges the tables at positions
0 and 1 whenever at least two are present.  The code runs `remove(0)` and
then `remove(1)` on the already-shrunk vector: with exactly two tables the
second `remove` panics (index 1 of a one-element vector, modelled as
`none`), and with three tables it merges positions 0 and 2 while the table
at position 1 survives. -/
theorem c5_compact_panics_with_two_tables :
    let t0 : SSTable := ⟨1, []⟩
    let t1 : SSTable := ⟨2, []⟩
    let t2 : SSTable := ⟨3, []⟩
    try_sstables_compact [t0, t1] 99 = none
      ∧ try_sstables_compact [t0, t1, t2] 99
          = some [SSTable.merge t0 t2 99, t1] := by
  decide

/-- C6.  The claim says that after `recover()` the bloom filter contains every
tid referenced by the recovered state and the key→tid map maps every key of
that state.  `RDeeBee::recover` only replaces the memtable and the SSTable
list; recovering a directory whose single WAL holds an event with tid 5
leaves the bloom filter empty (`find 5 = false`) and the key map empty. -/
theorem c6_recover_skips_bloom_and_keymap :
    MemTable.containsTid c6_state.memtable 5 = true
      ∧ BloomFilter.find hid hzero c6_state.bloomfilter 5 = false
      ∧ c6_state.key_to_id_map = [] := by
  decide

/-- C7 (counterexample).  The claim as stated says a full memtable iteration
yields each tid at most once, in strictly ascending order.  Inserting two
events with the same tid 5 leaves the id twice in the skiplist index, so
iteration yields the (latest) event twice and the tid sequence `[5, 5]` is
not strictly ascending. -/
theorem c7_iteration_repeats_tid_counterexample :
    let e1 : Event := ⟨1, 5, Action.Write, some [1]⟩
    let e2 : Event := ⟨2, 5, Action.Write, some [2]⟩
    ((MemTable.new.insert e1).insert e2).toList = [e2, e2]
      ∧ ¬ ((((MemTable.new.insert e1).insert e2).toList.map Event.tid).Pairwise
            (· < ·)) := by
  decide

/-- C7 (amended).  The memtable's entry map holds exactly one event per tid —
an insert with an already-present tid replaces the stored event — and a
full iteration yields events whose tids are in ascending (non-strict)
order, each yielded event being the one currently stored for its tid; a
tid inserted more than once is, however, yielded once per insertion. -/
theorem c7_memtable_entries_latest_wins_iteration_sorted (es : List Event)
    (e : Event) :
    let m := es.foldl MemTable.insert MemTable.new
    (m.toList.map Event.tid).Sorted (· ≤ ·)
    ∧ (m.toList.all (fun x => alGet m.entries x.tid == some x)) = true
    ∧ alGet (m.insert e).entries e.tid = some e := by
  intro m
  have hwf : m.WF := wf_foldl es MemTable.new wf_new
  obtain ⟨hmap, hmem⟩ := memGo_spec m.entries m.identifiers hwf.2
  refine ⟨?_, ?_, ?_⟩
  · rw [MemTable.toList, hmap]
    exact hwf.1
  · rw [List.all_eq_true]
    intro x hx
    have hx' := hmem x hx
    simp [hx']
  · simp [MemTable.insert, alGet_alInsert]

/-- Witness for C7: the amended statement evaluated on a concrete insert
sequence (tids 9, 4, 9). -/
theorem c7_memtable_entries_latest_wins_iteration_sorted_witness :
    let m := [(⟨1, 9, Action.Write, some [1]⟩ : Event),
              ⟨2, 4, Action.Write, some [2]⟩,
              ⟨3, 9, Action.Write, some [3]⟩].foldl MemTable.insert MemTable.new
    (m.toList.map Event.tid).Sorted (· ≤ ·)
    ∧ (m.toList.all (fun x => alGet m.entries x.tid == some x)) = true
    ∧ alGet (m.insert ⟨4, 6, Action.Write, none⟩).entries 6
        = some ⟨4, 6, Action.Write, none⟩ :=
  c7_memtable_entries_latest_wins_iteration_sorted
    [⟨1, 9, Action.Write, some [1]⟩, ⟨2, 4, Action.Write, some [2]⟩,
     ⟨3, 9, Action.Write, some [3]⟩]
    ⟨4, 6, Action.Write, none⟩

/-- C8.  The claim says the serialized body written before the `|` terminator
contains no `|` byte, so the encode-then-decode round-trip holds for all
payload byte values.  `bincode` embeds payload bytes verbatim: an event
whose payload is `[124]` (the byte `b'|'`) has the terminator inside its
body, and `read_until(b'|')` returns a first chunk that is not the written
record. -/
theorem c8_encoded_body_contains_terminator_byte :
    let e : Event := ⟨0, 0, Action.Write, some [124]⟩
    (encodeEvent e).contains 124 = true
      ∧ (readUntil (walBytes [e])).1 ≠ encodeEvent e ++ [124] := by
  decide

/-- C9.  The claim says that, with both election slots occupied and the watch
installed, a `Delete` event whose key is prefixed by the second leader key
makes `watch_group_leaders` return the second election key.  The loop only
ever compares against leader key 1 and only ever returns election key 1: a
`Delete` of leader key 2 itself (trivially prefixed by it) matches nothing
and the function returns `None`. -/
theorem c9_second_leader_delete_yields_none :
    watch_group_leaders_dispatch "db" 0
        [⟨WatchEventType.Delete, leader_key_gen "db" 0 2⟩] = none
      ∧ strContains (leader_key_gen "db" 0 2) (leader_key_gen "db" 0 2)
          = true := by
  decide

/-- C10.  When `add_event` is called with a key absent from the key→tid map
and the WAL append fails, the response is `Server_Error`, the memtable and
the WAL are unchanged, yet the key→tid map now binds the key to the fresh
tid and the bloom filter contains that tid: the key-resolution side
effects are not rolled back. -/
theorem c10_wal_failure_leaves_key_and_bloom (h1 h2 : Nat → Nat) (db : RDeeBee)
    (req : Request) (op : Operation) (freshTid : Nat) (hop : req.op = some op)
    (hkey : alGet db.key_to_id_map req.key = none) :
    (RDeeBee.add_event h1 h2 db req freshTid false).1.status = Status.Server_Error
    ∧ (RDeeBee.add_event h1 h2 db req freshTid false).2.memtable = db.memtable
    ∧ (RDeeBee.add_event h1 h2 db req freshTid false).2.wal = db.wal
    ∧ alGet (RDeeBee.add_event h1 h2 db req freshTid false).2.key_to_id_map req.key
        = some freshTid
    ∧ ((RDeeBee.add_event h1 h2 db req freshTid false).2.bloomfilter.find h1 h2
        freshTid) = true := by
  simp only [RDeeBee.add_event, hop, hkey]
  refine ⟨rfl, rfl, rfl, ?_, ?_⟩
  · simp [Event.new, alGet_alInsert]
  · exact find_add_self h1 h2 db.bloomfilter freshTid

/-- Witness for C10: a fresh engine, key `"k"` unmapped, fresh tid 6, WAL
append failing. -/
theorem c10_wal_failure_leaves_key_and_bloom_witness :
    let h1 := fun n : Nat => n
    let h2 := fun _ : Nat => 0
    let req : Request := ⟨"k", some Operation.Write, 3, [65]⟩
    (RDeeBee.add_event h1 h2 RDeeBee.new req 6 false).1.status = Status.Server_Error
    ∧ (RDeeBee.add_event h1 h2 RDeeBee.new req 6 false).2.memtable
        = RDeeBee.new.memtable
    ∧ (RDeeBee.add_event h1 h2 RDeeBee.new req 6 false).2.wal = RDeeBee.new.wal
    ∧ alGet (RDeeBee.add_event h1 h2 RDeeBee.new req 6 false).2.key_to_id_map "k"
        = some 6
    ∧ ((RDeeBee.add_event h1 h2 RDeeBee.new req 6 false).2.bloomfilter.find h1 h2 6)
        = true :=
  c10_wal_failure_leaves_key_and_bloom (fun n => n) (fun _ => 0) RDeeBee.new
    ⟨"k", some Operation.Write, 3, [65]⟩ Operation.Write 6 rfl rfl

end RDB
